import Mathlib

/-!
Shallow embedding of `rocket-okapi/src/gen.rs` (the OpenAPI aggregation and
assembly engine): the operation registry, the schema reference conversion and
the document assembler.

Modelling conventions:
* Rust `HashMap<(String, Method), Operation>` and `okapi::Map` (an ordered map
  keyed uniquely) are embedded as association lists; lookups are faithful, and
  all properties proved are lookup characterizations that do not depend on
  iteration order (the Rust `HashMap` iteration order is unspecified).
* A Rust panic (`panic!` in `add_operation`, `assert!` in `set_operation`) is
  embedded as the `error`/`none` branch of `Except`/`Option`.
* The data types of the sibling `okapi` crate and of the external schema
  capability (`Operation`, `PathItem`, `OpenApi`, `Components`, `Schema`,
  `SchemaObject`, `RefOr`, `SchemaGenerator`) are not under `src/`; they are
  modelled from the spec's data model section, with representative fields for
  "other content" where the claims quantify over it.
-/

/-- HTTP methods of `rocket::http::Method` as matched by `set_operation`. -/
inductive Method where
  | Get | Put | Post | Delete | Options | Head | Patch | Trace | Connect
  deriving DecidableEq, Repr

/-- Modelled from the spec: an operation descriptor's structured object, with
an optional operation identifier plus representative other content (summary,
parameters, responses); the `okapi` crate's `Operation` is not under `src/`. -/
structure Operation where
  operation_id : Option String := none
  summary : Option String := none
  parameters : List String := []
  responses : List (String × String) := []
  deriving DecidableEq, Repr

/-- Modelled from the spec: the input tuple from the route-extraction
collaborator: route path, HTTP method, and the operation object. -/
structure OperationInfo where
  path : String
  method : Method
  operation : Operation
  deriving DecidableEq, Repr

/- Operation identifier normalization, from `add_operation`:
`op_id.trim_start_matches(':').replace("::", "_")`. -/

/-- Embeds Rust `trim_start_matches(':')`: strip every leading colon. -/
def trimStartColons : List Char → List Char
  | [] => []
  | c :: cs => if c = ':' then trimStartColons cs else c :: cs

/-- Embeds Rust `replace("::", "_")` for the fixed pattern `"::"`: a single
left-to-right scan replacing each non-overlapping occurrence of two colons. -/
def replaceColons : List Char → List Char
  | [] => []
  | [c] => [c]
  | c1 :: c2 :: cs =>
    if c1 = ':' ∧ c2 = ':' then '_' :: replaceColons cs
    else c1 :: replaceColons (c2 :: cs)

/-- The whole normalization applied to an operation identifier in
`add_operation`. -/
def normalizeOpId (s : String) : String :=
  ⟨replaceColons (trimStartColons s.data)⟩

/-- Detects an occurrence of two adjacent colons. -/
def hasDD : List Char → Bool
  | c1 :: c2 :: cs => (c1 = ':' && c2 = ':') || hasDD (c2 :: cs)
  | _ => false

mutual
/-- Modelled from the spec: a generated schema is one of reference-by-name,
inline object, universal-accept (`true`), universal-reject (`false`). -/
inductive Schema where
  | Ref : String → Schema
  | Object : SchemaObject → Schema
  | Bool : Bool → Schema

/-- Modelled from the spec: a concrete inline schema object; `constraints` is
representative content and `not` is the negation constraint synthesized for
the universal-reject case. -/
inductive SchemaObject where
  | mk : (constraints : List String) → (not : Option Schema) → SchemaObject
end

/-- Constraint list of a schema object. -/
def SchemaObject.constraints : SchemaObject → List String
  | .mk cs _ => cs

/-- Negation constraint of a schema object. -/
def SchemaObject.notC : SchemaObject → Option Schema
  | .mk _ n => n

/-- Rust `SchemaObject::default()`: no constraints at all. -/
def defaultSchemaObject : SchemaObject := .mk [] none

/-- Modelled from the spec: `okapi`'s `RefOr<T>`, a reference or an inline
value. -/
inductive RefOr (T : Type) where
  | Ref : String → RefOr T
  | Object : T → RefOr T
  deriving DecidableEq

/-- Embeds `get_ref_or_object` of `gen.rs`. -/
def get_ref_or_object : Schema → RefOr SchemaObject
  | .Ref r => .Ref r
  | .Object s => .Object s
  | .Bool true => .Object defaultSchemaObject
  | .Bool false => .Object (.mk [] (some (.Object defaultSchemaObject)))

/-- Modelled from the spec: a `PathItem` holds at most one operation per HTTP
method slot (get/put/post/delete/options/head/patch/trace). -/
structure PathItem where
  get : Option Operation := none
  put : Option Operation := none
  post : Option Operation := none
  delete : Option Operation := none
  options : Option Operation := none
  head : Option Operation := none
  patch : Option Operation := none
  trace : Option Operation := none
  deriving DecidableEq, Repr

/-- Spec-side helper: the slot of a `PathItem` textually corresponding to a
method; `Connect` has no slot in the format, rendered as `none`. -/
def slotOf (item : PathItem) : Method → Option Operation
  | .Get => item.get
  | .Put => item.put
  | .Post => item.post
  | .Delete => item.delete
  | .Options => item.options
  | .Head => item.head
  | .Patch => item.patch
  | .Trace => item.trace
  | .Connect => none

/-- Embeds `set_operation` of `gen.rs`: `Connect` returns without writing;
otherwise the target slot is asserted empty (`none` embeds the `assert!`
failure) and the operation is written into it. -/
def set_operation (path_item : PathItem) (method : Method) (op : Operation) :
    Option PathItem :=
  match method with
  | .Get => if path_item.get.isNone then some { path_item with get := some op } else none
  | .Put => if path_item.put.isNone then some { path_item with put := some op } else none
  | .Post => if path_item.post.isNone then some { path_item with post := some op } else none
  | .Delete => if path_item.delete.isNone then some { path_item with delete := some op } else none
  | .Options => if path_item.options.isNone then some { path_item with options := some op } else none
  | .Head => if path_item.head.isNone then some { path_item with head := some op } else none
  | .Patch => if path_item.patch.isNone then some { path_item with patch := some op } else none
  | .Trace => if path_item.trace.isNone then some { path_item with trace := some op } else none
  | .Connect => some path_item

/-- Modelled from the spec: the external schema generator state, reduced to
its accumulated named-definitions table (the generation algorithm itself is
an excluded collaborator). -/
structure SchemaGenerator where
  definitions : List (String × Schema)

/-- Embeds `schemars`' `into_definitions`: drain the named-definitions
table. -/
def into_definitions (g : SchemaGenerator) : List (String × Schema) :=
  g.definitions

/-- Modelled from the spec: the schema-generation dialect settings. -/
structure SchemaSettings where
  dialect : String := "openapi3"
  deriving DecidableEq, Repr

/-- Embeds `OpenApiSettings` of `gen.rs`. -/
structure OpenApiSettings where
  schema_settings : SchemaSettings := {}
  json_path : String := "/swagger/swagger.json"
  deriving DecidableEq, Repr

/-- Embeds `OpenApiSettings::default()`. -/
def OpenApiSettings.default : OpenApiSettings :=
  { schema_settings := { dialect := "openapi3" }, json_path := "/swagger/swagger.json" }

/-- Embeds `OpenApiGenerator` of `gen.rs`; the operations `HashMap` is an
association list keyed by `(path, method)`. -/
structure OpenApiGenerator where
  settings : OpenApiSettings
  schema_generator : SchemaGenerator
  operations : List ((String × Method) × Operation)

/-- Embeds `OpenApiGenerator::new`: empty registry, generator built from the
settings (its definitions table starts empty). -/
def OpenApiGenerator.new (settings : OpenApiSettings) : OpenApiGenerator :=
  { settings := settings, schema_generator := ⟨[]⟩, operations := [] }

/-- Key lookup in the operations registry (`HashMap` get/entry semantics). -/
def lookupOp : List ((String × Method) × Operation) → String → Method → Option Operation
  | [], _, _ => none
  | (k, op) :: rest, p, m => if k = (p, m) then some op else lookupOp rest p m

/-- Embeds `add_operation` of `gen.rs`: normalize the operation identifier if
present, then insert under key `(path, method)`; an occupied entry is the
`panic!` reporting the method and the path, embedded as `Except.error`. -/
def add_operation (g : OpenApiGenerator) (opInfo : OperationInfo) :
    Except (Method × String) OpenApiGenerator :=
  match lookupOp g.operations opInfo.path opInfo.method with
  | some _ => .error (opInfo.method, opInfo.path)
  | none => .ok { g with operations := g.operations ++
      [((opInfo.path, opInfo.method),
        { opInfo.operation with
          operation_id := opInfo.operation.operation_id.map normalizeOpId })] }

/-- Lookup in the paths map (association list embedding of `okapi::Map`). -/
def lookupPath : List (String × PathItem) → String → Option PathItem
  | [], _ => none
  | (q, item) :: rest, p => if q = p then some item else lookupPath rest p

/-- Embeds `paths.entry(path).or_default()` followed by an update of the found
or freshly inserted `PathItem`; `none` propagates the update's failure. -/
def updatePath : List (String × PathItem) → String → (PathItem → Option PathItem) →
    Option (List (String × PathItem))
  | [], p, f => (f {}).map fun item => [(p, item)]
  | (q, item) :: rest, p, f =>
    if q = p then (f item).map fun item' => (p, item') :: rest
    else (updatePath rest p f).map fun rest' => (q, item) :: rest'

/-- The assembly loop of `into_openapi`: for each registered
`((path, method), op)`, find-or-create the `PathItem` and run
`set_operation`. -/
def buildPathsAux (paths : List (String × PathItem)) :
    List ((String × Method) × Operation) → Option (List (String × PathItem))
  | [] => some paths
  | ((p, m), op) :: rest =>
    match updatePath paths p (fun item => set_operation item m op) with
    | none => none
    | some paths' => buildPathsAux paths' rest

/-- The paths map built by `into_openapi` from the registry. -/
def buildPaths (ops : List ((String × Method) × Operation)) :
    Option (List (String × PathItem)) :=
  buildPathsAux [] ops

/-- Modelled from the spec: the components section; `schemas` plus
representative other sections that stay at their default/empty values. -/
structure Components where
  schemas : List (String × RefOr SchemaObject) := []
  responses : List String := []
  security_schemes : List String := []

/-- Modelled from the spec: the OpenAPI document; version string, paths map
and components, plus representative other sections with default values. -/
structure OpenApi where
  openapi : String := ""
  info : String := ""
  servers : List String := []
  paths : List (String × PathItem) := []
  components : Option Components := none
  security : List String := []
  tags : List String := []

/-- Embeds `into_openapi` of `gen.rs`: version fixed to "3.0.0", the paths map
built from the registry, components.schemas the drained definitions table with
`get_ref_or_object` applied to every entry, everything else default; `none`
embeds the `assert!` failure inside the loop. -/
def into_openapi (g : OpenApiGenerator) : Option OpenApi :=
  (buildPaths g.operations).map fun paths =>
    { openapi := "3.0.0"
      paths := paths
      components := some { schemas :=
        (into_definitions g.schema_generator).map fun kv => (kv.1, get_ref_or_object kv.2) } }

/-- Embeds `json_schema` of `gen.rs`, with the outcome of the external
capability call `subschema_for::<T>()` taken as input (modelled from the
spec's capability contract `generate(type) -> Result<Schema, GenerationError>`):
the `?` propagates the error, a success is converted by
`get_ref_or_object`. -/
def json_schema (subschemaResult : Except String Schema) :
    Except String (RefOr SchemaObject) :=
  match subschemaResult with
  | .error e => .error e
  | .ok schema => .ok (get_ref_or_object schema)

/-- Spec-side helper: the registry keys are pairwise distinct. -/
def keysDistinct (ops : List ((String × Method) × Operation)) : Prop :=
  (ops.map Prod.fst).Nodup

instance (ops : List ((String × Method) × Operation)) : Decidable (keysDistinct ops) :=
  inferInstanceAs (Decidable (ops.map Prod.fst).Nodup)

/-- Spec-side helper: content of the method slot in a bare paths map. -/
def pathsSlot (paths : List (String × PathItem)) (p : String) (m : Method) :
    Option Operation :=
  (lookupPath paths p).bind fun item => slotOf item m

/-- Spec-side helper: content of the method slot of a document at a path. -/
def docSlot (doc : OpenApi) (p : String) (m : Method) : Option Operation :=
  pathsSlot doc.paths p m

/-- Spec-side helper: the registry restricted to the mapped (non-CONNECT)
methods. -/
def dropConnect (ops : List ((String × Method) × Operation)) :
    List ((String × Method) × Operation) :=
  ops.filter fun kv => kv.1.2 ≠ Method.Connect

/-! Lemmas about operation identifier normalization. -/

theorem trimStartColons_head : ∀ l : List Char, (trimStartColons l).head? ≠ some ':'
  | [] => by simp [trimStartColons]
  | c :: cs => by
    by_cases h : c = ':'
    · simpa [trimStartColons, h] using trimStartColons_head cs
    · simp [trimStartColons, h]

theorem replaceColons_head_of_ne (c : Char) (cs : List Char) (h : c ≠ ':') :
    (replaceColons (c :: cs)).head? = some c := by
  cases cs with
  | nil => simp [replaceColons]
  | cons c2 cs' => simp [replaceColons, h]

theorem hasDD_cons (c : Char) (r : List Char)
    (h : c ≠ ':' ∨ r.head? ≠ some ':') : hasDD (c :: r) = hasDD r := by
  cases r with
  | nil => simp [hasDD]
  | cons d ds =>
    rcases h with h | h
    · simp [hasDD, h]
    · simp only [List.head?] at h
      have hd : d ≠ ':' := fun he => h (by rw [he])
      simp [hasDD, hd]

theorem hasDD_replaceColons : ∀ l : List Char, hasDD (replaceColons l) = false
  | [] => rfl
  | [_] => rfl
  | c1 :: c2 :: cs => by
    by_cases h : c1 = ':' ∧ c2 = ':'
    · have ih := hasDD_replaceColons cs
      have hne : ('_' : Char) ≠ ':' := by decide
      simp only [replaceColons, if_pos h]
      rw [hasDD_cons _ _ (Or.inl hne)]
      exact ih
    · have ih := hasDD_replaceColons (c2 :: cs)
      simp only [replaceColons, if_neg h]
      by_cases h1 : c1 = ':'
      · have h2 : c2 ≠ ':' := fun he => h ⟨h1, he⟩
        rw [hasDD_cons _ _ (Or.inr (by rw [replaceColons_head_of_ne c2 cs h2]; simp [h2]))]
        exact ih
      · rw [hasDD_cons _ _ (Or.inl h1)]
        exact ih

theorem replaceColons_of_not_hasDD : ∀ l : List Char, hasDD l = false → replaceColons l = l
  | [], _ => rfl
  | [_], _ => rfl
  | c1 :: c2 :: cs, h => by
    simp only [hasDD, Bool.or_eq_false_iff, Bool.and_eq_false_iff] at h
    have hne : ¬(c1 = ':' ∧ c2 = ':') := by
      rcases h.1 with h1 | h2
      · exact fun hc => by simp [hc.1] at h1
      · exact fun hc => by simp [hc.2] at h2
    simp only [replaceColons, if_neg hne]
    rw [replaceColons_of_not_hasDD (c2 :: cs) h.2]

theorem trimStartColons_of_head_ne (l : List Char) (h : l.head? ≠ some ':') :
    trimStartColons l = l := by
  cases l with
  | nil => rfl
  | cons c cs =>
    simp only [List.head?] at h
    have hc : c ≠ ':' := fun he => h (by rw [he])
    simp [trimStartColons, hc]

theorem replaceColons_of_not_mem : ∀ l : List Char, ':' ∉ l → replaceColons l = l
  | [], _ => rfl
  | [_], _ => rfl
  | c1 :: c2 :: cs, h => by
    have h1 : c1 ≠ ':' := fun he => h (by rw [he]; exact List.mem_cons_self _ _)
    have h2 : ':' ∉ c2 :: cs := fun hm => h (List.mem_cons_of_mem _ hm)
    have hne : ¬(c1 = ':' ∧ c2 = ':') := fun hc => h1 hc.1
    simp only [replaceColons, if_neg hne]
    rw [replaceColons_of_not_mem (c2 :: cs) h2]

theorem normalizeOpId_head (s : String) :
    (normalizeOpId s).data.head? ≠ some ':' := by
  show (replaceColons (trimStartColons s.data)).head? ≠ some ':'
  cases ht : trimStartColons s.data with
  | nil => simp [replaceColons]
  | cons c cs =>
    have hc : c ≠ ':' := by
      have := trimStartColons_head s.data
      rw [ht] at this
      simpa using this
    rw [replaceColons_head_of_ne c cs hc]
    simpa using hc

theorem lookupOp_append_self (ops : List ((String × Method) × Operation))
    (p : String) (m : Method) (op : Operation) (h : lookupOp ops p m = none) :
    lookupOp (ops ++ [((p, m), op)]) p m = some op := by
  induction ops with
  | nil => simp [lookupOp]
  | cons kv rest ih =>
    obtain ⟨k, op'⟩ := kv
    by_cases hk : k = (p, m)
    · simp [lookupOp, hk] at h
    · simp only [lookupOp, if_neg hk] at h
      simpa [lookupOp, hk] using ih h

/-- Claim C5: the identifier "::foo::bar" normalizes to "foo_bar", ":bar"
normalizes to "bar", an identifier containing no separator characters is
unchanged, and `add_operation` stores the descriptor with its operation
identifier already normalized. -/
theorem C5_identifier_normalization :
    normalizeOpId "::foo::bar" = "foo_bar" ∧
    normalizeOpId ":bar" = "bar" ∧
    (∀ s : String, ':' ∉ s.data → normalizeOpId s = s) ∧
    (∀ (g : OpenApiGenerator) (opInfo : OperationInfo) (g' : OpenApiGenerator),
      add_operation g opInfo = .ok g' →
      lookupOp g'.operations opInfo.path opInfo.method =
        some { opInfo.operation with
               operation_id := opInfo.operation.operation_id.map normalizeOpId }) := by
  refine ⟨by decide, by decide, ?_, ?_⟩
  · intro s hs
    show (⟨replaceColons (trimStartColons s.data)⟩ : String) = s
    rw [trimStartColons_of_head_ne s.data, replaceColons_of_not_mem s.data hs]
    intro hh
    cases hd : s.data with
    | nil => rw [hd] at hh; simp at hh
    | cons c cs =>
      rw [hd] at hh hs
      simp only [List.head?, Option.some_inj] at hh
      exact hs (by rw [hh]; exact List.mem_cons_self _ _)
  · intro g opInfo g' h
    unfold add_operation at h
    split at h
    · cases h
    · rename_i heq
      simp only [Except.ok.injEq] at h
      subst h
      exact lookupOp_append_self _ _ _ _ heq

/-- Claim C10: the identifier normalization (strip all leading colons, then
replace each "::" by "_") is idempotent. -/
theorem C10_normalization_idempotent (s : String) :
    normalizeOpId (normalizeOpId s) = normalizeOpId s := by
  have hhead := normalizeOpId_head s
  show (⟨replaceColons (trimStartColons (normalizeOpId s).data)⟩ : String) = normalizeOpId s
  rw [trimStartColons_of_head_ne _ hhead]
  have : (normalizeOpId s).data = replaceColons (trimStartColons s.data) := rfl
  rw [this, replaceColons_of_not_hasDD _ (hasDD_replaceColons _)]
  rfl

/-! Lemmas about `set_operation` and the paths map. -/

theorem slotOf_default (m : Method) : slotOf {} m = none := by
  cases m <;> rfl

theorem pathsSlot_connect (paths : List (String × PathItem)) (p : String) :
    pathsSlot paths p .Connect = none := by
  unfold pathsSlot
  cases lookupPath paths p <;> simp [slotOf]

theorem set_operation_connect (item : PathItem) (op : Operation) :
    set_operation item .Connect op = some item := rfl

theorem set_operation_slots (item : PathItem) (m : Method) (op : Operation)
    (item' : PathItem) (hm : m ≠ .Connect) (h : set_operation item m op = some item') :
    slotOf item' m = some op ∧ ∀ m', m' ≠ m → slotOf item' m' = slotOf item m' := by
  cases m
  all_goals first
    | exact absurd rfl hm
    | (simp only [set_operation] at h
       split at h
       · injection h with h'
         subst h'
         exact ⟨rfl, fun m' hne => by cases m' <;> first | exact absurd rfl hne | rfl⟩
       · cases h)

theorem set_operation_isSome (item : PathItem) (m : Method) (op : Operation)
    (h : m = .Connect ∨ slotOf item m = none) :
    (set_operation item m op).isSome = true := by
  cases m <;> simp_all [set_operation, slotOf]

theorem updatePath_spec (paths : List (String × PathItem)) (p : String)
    (f : PathItem → Option PathItem) (item' : PathItem)
    (h : f ((lookupPath paths p).getD {}) = some item') :
    ∃ paths', updatePath paths p f = some paths' ∧
      ∀ q, lookupPath paths' q = if q = p then some item' else lookupPath paths q := by
  induction paths with
  | nil =>
    simp only [lookupPath, Option.getD_none] at h
    refine ⟨[(p, item')], by simp [updatePath, h], ?_⟩
    intro q
    by_cases hq : q = p
    · simp [lookupPath, hq]
    · have hpq : ¬p = q := fun he => hq he.symm
      simp [lookupPath, hq, hpq]
  | cons head rest ih =>
    obtain ⟨k, item0⟩ := head
    by_cases hk : k = p
    · subst hk
      have h' : f item0 = some item' := by simpa [lookupPath] using h
      refine ⟨(k, item') :: rest, by simp [updatePath, h'], ?_⟩
      intro q
      by_cases hq : k = q
      · subst hq
        simp [lookupPath]
      · have hqk : ¬q = k := fun he => hq he.symm
        simp [lookupPath, hq, hqk]
    · have h' : f ((lookupPath rest p).getD {}) = some item' := by
        simpa [lookupPath, hk] using h
      obtain ⟨rest', hup, hlk⟩ := ih h'
      refine ⟨(k, item0) :: rest', by simp [updatePath, hk, hup], ?_⟩
      intro q
      by_cases hq : k = q
      · subst hq
        have : ¬(k = p) := hk
        simp [lookupPath, fun he : k = p => hk he, hlk k]
      · simp [lookupPath, hq, hlk q]

theorem updatePath_set_operation (paths : List (String × PathItem)) (p0 : String)
    (m0 : Method) (op0 : Operation)
    (hemp : m0 = .Connect ∨ pathsSlot paths p0 m0 = none) :
    ∃ paths', updatePath paths p0 (fun item => set_operation item m0 op0) = some paths' ∧
      ∀ p m, pathsSlot paths' p m =
        if p = p0 ∧ m = m0 ∧ m0 ≠ .Connect then some op0 else pathsSlot paths p m := by
  have hbase : ∀ m, slotOf ((lookupPath paths p0).getD {}) m = pathsSlot paths p0 m := by
    intro m
    unfold pathsSlot
    cases hl : lookupPath paths p0 with
    | some it => simp [hl]
    | none => simp [hl, slotOf_default]
  have hslot : m0 = .Connect ∨ slotOf ((lookupPath paths p0).getD {}) m0 = none := by
    rcases hemp with h | h
    · exact Or.inl h
    · exact Or.inr (by rw [hbase m0]; exact h)
  have hsome := set_operation_isSome ((lookupPath paths p0).getD {}) m0 op0 hslot
  obtain ⟨item', hitem⟩ := Option.isSome_iff_exists.mp hsome
  obtain ⟨paths', hup, hlk⟩ :=
    updatePath_spec paths p0 (fun item => set_operation item m0 op0) item' hitem
  refine ⟨paths', hup, ?_⟩
  have hfill : ∀ m, slotOf item' m =
      if m = m0 ∧ m0 ≠ .Connect then some op0 else pathsSlot paths p0 m := by
    intro m
    by_cases hc : m0 = .Connect
    · have hid : item' = (lookupPath paths p0).getD {} := by
        rw [hc, set_operation_connect] at hitem
        exact (Option.some_inj.mp hitem).symm
      rw [hid]
      simp only [hc, ne_eq, not_true_eq_false, and_false, if_false]
      exact hbase m
    · obtain ⟨hw, hfr⟩ := set_operation_slots _ m0 op0 item' hc hitem
      by_cases hm : m = m0
      · rw [hm]
        simpa [hc] using hw
      · rw [hfr m hm]
        simp only [hm, false_and, if_false]
        exact hbase m
  have hps : ∀ p m, pathsSlot paths' p m =
      if p = p0 then slotOf item' m else pathsSlot paths p m := by
    intro p m
    by_cases hp : p = p0
    · simp only [pathsSlot, hlk p, if_pos hp, Option.some_bind]
    · simp only [pathsSlot, hlk p, if_neg hp]
  intro p m
  rw [hps p m]
  by_cases hp : p = p0
  · rw [if_pos hp, hfill m]
    by_cases hcond : m = m0 ∧ m0 ≠ .Connect
    · rw [if_pos hcond, if_pos ⟨hp, hcond⟩]
    · rw [if_neg hcond, if_neg (fun hcc => hcond ⟨hcc.2.1, hcc.2.2⟩), hp]
  · rw [if_neg hp, if_neg (fun hcc => hp hcc.1)]

theorem lookupOp_eq_none_of_not_mem (ops : List ((String × Method) × Operation))
    (p : String) (m : Method) (h : (p, m) ∉ ops.map Prod.fst) :
    lookupOp ops p m = none := by
  induction ops with
  | nil => rfl
  | cons kv rest ih =>
    obtain ⟨k, op⟩ := kv
    simp only [List.map_cons, List.mem_cons] at h
    push_neg at h
    rw [lookupOp, if_neg (fun he => h.1 he.symm)]
    exact ih h.2

theorem buildPathsAux_spec (ops : List ((String × Method) × Operation)) :
    ∀ paths : List (String × PathItem),
    (ops.map Prod.fst).Nodup →
    (∀ p m, (p, m) ∈ ops.map Prod.fst → pathsSlot paths p m = none) →
    ∃ paths', buildPathsAux paths ops = some paths' ∧
      ∀ p m, pathsSlot paths' p m =
        if m = .Connect then none
        else match lookupOp ops p m with
          | some o => some o
          | none => pathsSlot paths p m := by
  induction ops with
  | nil =>
    intro paths _ _
    refine ⟨paths, rfl, ?_⟩
    intro p m
    by_cases hm : m = .Connect
    · rw [if_pos hm, hm, pathsSlot_connect]
    · rw [if_neg hm]
      rfl
  | cons hd rest ih =>
    intro paths hdk hfree
    obtain ⟨⟨p0, m0⟩, op0⟩ := hd
    have hdk' : ((p0, m0) :: rest.map Prod.fst).Nodup := by simpa using hdk
    have hnodup : (rest.map Prod.fst).Nodup := (List.nodup_cons.mp hdk').2
    have hnotmem : (p0, m0) ∉ rest.map Prod.fst := (List.nodup_cons.mp hdk').1
    have hkey : ((p0, m0) : String × Method) ∈ ((((p0, m0), op0)) :: rest).map Prod.fst := by
      simp
    have hemp : m0 = .Connect ∨ pathsSlot paths p0 m0 = none :=
      Or.inr (hfree p0 m0 hkey)
    obtain ⟨paths1, hup, hch⟩ := updatePath_set_operation paths p0 m0 op0 hemp
    have hfree1 : ∀ p m, (p, m) ∈ rest.map Prod.fst → pathsSlot paths1 p m = none := by
      intro p m hmem
      rw [hch p m]
      by_cases hcond : p = p0 ∧ m = m0 ∧ m0 ≠ .Connect
      · exfalso
        obtain ⟨hp, hm, _⟩ := hcond
        rw [hp, hm] at hmem
        exact hnotmem hmem
      · rw [if_neg hcond]
        exact hfree p m (by simp only [List.map_cons]; exact List.mem_cons_of_mem _ hmem)
    obtain ⟨paths', hbuild, hfin⟩ := ih paths1 hnodup hfree1
    refine ⟨paths', ?_, ?_⟩
    · simp only [buildPathsAux, hup]
      exact hbuild
    · intro p m
      rw [hfin p m]
      by_cases hm : m = .Connect
      · rw [if_pos hm, if_pos hm]
      · rw [if_neg hm, if_neg hm]
        by_cases hk : ((p0, m0) : String × Method) = (p, m)
        · have hp : p0 = p := congrArg Prod.fst hk
          have hmm : m0 = m := congrArg Prod.snd hk
          have hrest : lookupOp rest p m = none :=
            lookupOp_eq_none_of_not_mem rest p m (by rw [← hp, ← hmm]; exact hnotmem)
          have hcond : p = p0 ∧ m = m0 ∧ m0 ≠ Method.Connect :=
            ⟨hp.symm, hmm.symm, fun hcc => hm (hmm.symm.trans hcc)⟩
          simp only [lookupOp, if_pos hk, hrest, hch p m, if_pos hcond]
        · have hskip : lookupOp (((p0, m0), op0) :: rest) p m = lookupOp rest p m := by
            rw [lookupOp, if_neg hk]
          rw [hskip]
          cases hl : lookupOp rest p m with
          | some o => simp only [hl]
          | none =>
            simp only [hl]
            rw [hch p m, if_neg (fun hcc => hk (by rw [hcc.1, hcc.2.1]))]

theorem into_openapi_char (g : OpenApiGenerator) (h : keysDistinct g.operations) :
    ∃ doc, into_openapi g = some doc ∧
      ∀ p m, docSlot doc p m =
        if m = .Connect then none else lookupOp g.operations p m := by
  obtain ⟨paths', hbuild, hfin⟩ := buildPathsAux_spec g.operations [] h (fun _ _ _ => rfl)
  have hio : into_openapi g = some
      { openapi := "3.0.0", paths := paths',
        components := some { schemas :=
          (into_definitions g.schema_generator).map fun kv => (kv.1, get_ref_or_object kv.2) } } := by
    unfold into_openapi buildPaths
    rw [hbuild]
    rfl
  refine ⟨_, hio, ?_⟩
  intro p m
  show pathsSlot paths' p m = _
  rw [hfin p m]
  by_cases hm : m = .Connect
  · rw [if_pos hm, if_pos hm]
  · rw [if_neg hm, if_neg hm]
    cases hl : lookupOp g.operations p m with
    | some o => simp only [hl]
    | none => simp only [hl]; rfl

theorem lookupOp_dropConnect (ops : List ((String × Method) × Operation))
    (p : String) (m : Method) (hm : m ≠ Method.Connect) :
    lookupOp (dropConnect ops) p m = lookupOp ops p m := by
  induction ops with
  | nil => rfl
  | cons kv rest ih =>
    obtain ⟨⟨kp, km⟩, op⟩ := kv
    by_cases hc : km = Method.Connect
    · have hskip : dropConnect (((kp, km), op) :: rest) = dropConnect rest := by
        simp [dropConnect, hc]
      have hne : ¬((kp, km) : String × Method) = (p, m) :=
        fun he => hm ((congrArg Prod.snd he).symm.trans hc)
      rw [hskip, ih]
      simp only [lookupOp, if_neg hne]
    · have hkeep : dropConnect (((kp, km), op) :: rest) = ((kp, km), op) :: dropConnect rest := by
        simp [dropConnect, hc]
      rw [hkeep]
      simp only [lookupOp]
      by_cases hk : ((kp, km) : String × Method) = (p, m)
      · rw [if_pos hk, if_pos hk]
      · rw [if_neg hk, if_neg hk]
        exact ih

theorem keysDistinct_dropConnect (ops : List ((String × Method) × Operation))
    (h : keysDistinct ops) : keysDistinct (dropConnect ops) := by
  unfold keysDistinct at h ⊢
  exact List.Nodup.sublist (List.Sublist.map Prod.fst (List.filter_sublist _)) h

/-! Claim theorems. -/

/-- Claim C1, amended: for every registry whose (path, method) keys are
pairwise distinct, assembly succeeds, and the content of every method slot of
the document is exactly the registered operation under that (path, method)
key for the eight mapped methods — so each registered non-CONNECT operation
appears in exactly the slot matching its method — while CONNECT-method
registrations occupy no slot. -/
theorem C1_assembly_characterization (g : OpenApiGenerator)
    (h : keysDistinct g.operations) :
    ∃ doc, into_openapi g = some doc ∧
      ∀ p m, docSlot doc p m =
        if m = .Connect then none else lookupOp g.operations p m :=
  into_openapi_char g h

/-- Counterexample to claim C1 as stated: a single registered CONNECT
operation has pairwise distinct keys, assembly succeeds, but the resulting
document's only path item is the default one with every slot empty — the
registered operation appears in no slot at all. -/
theorem C1_counterexample :
    add_operation (OpenApiGenerator.new OpenApiSettings.default)
        ⟨"/c", Method.Connect, { summary := some "probe" }⟩ =
      .ok { settings := OpenApiSettings.default, schema_generator := ⟨[]⟩,
            operations := [(("/c", Method.Connect), { summary := some "probe" })] } ∧
    into_openapi
        { settings := OpenApiSettings.default, schema_generator := ⟨[]⟩,
          operations := [(("/c", Method.Connect), { summary := some "probe" })] } =
      some { openapi := "3.0.0", paths := [("/c", {})],
             components := some { schemas := [] } } :=
  ⟨rfl, rfl⟩

/-- Witness for claim C1's amended theorem at a concrete two-operation
registry. -/
theorem C1_assembly_characterization_witness :
    keysDistinct [(("/items", Method.Get), ({ summary := some "g" } : Operation)),
                  (("/items", Method.Post), ({ summary := some "p" } : Operation))] ∧
    ∃ doc, into_openapi
        { settings := OpenApiSettings.default, schema_generator := ⟨[]⟩,
          operations := [(("/items", Method.Get), { summary := some "g" }),
                         (("/items", Method.Post), { summary := some "p" })] } = some doc ∧
      ∀ p m, docSlot doc p m =
        if m = .Connect then none
        else lookupOp [(("/items", Method.Get), { summary := some "g" }),
                       (("/items", Method.Post), { summary := some "p" })] p m :=
  ⟨by decide, C1_assembly_characterization _ (by decide)⟩

/-- Claim C2: registering a descriptor whose (path, method) key is already
present fails with an error reporting the offending method and path (for any
descriptor content), and a successful registration makes its key present —
hence the second of two same-key registrations fails in either order. -/
theorem C2_duplicate_registration_fatal (g : OpenApiGenerator)
    (opInfo : OperationInfo) :
    ((lookupOp g.operations opInfo.path opInfo.method).isSome = true →
      add_operation g opInfo = .error (opInfo.method, opInfo.path)) ∧
    ∀ g', add_operation g opInfo = .ok g' →
      (lookupOp g'.operations opInfo.path opInfo.method).isSome = true := by
  constructor
  · intro h
    unfold add_operation
    cases hl : lookupOp g.operations opInfo.path opInfo.method with
    | some op0 => rfl
    | none => simp [hl] at h
  · intro g' hok
    unfold add_operation at hok
    split at hok
    · cases hok
    · rename_i heq
      simp only [Except.ok.injEq] at hok
      subst hok
      rw [lookupOp_append_self _ _ _ _ heq]
      rfl

/-- Witness for claim C2's theorem: a registry already holding the key
("/a", Get) rejects a new registration under that key, reporting the method
and path. -/
theorem C2_duplicate_registration_fatal_witness :
    (lookupOp [(("/a", Method.Get), ({} : Operation))] "/a" Method.Get).isSome = true ∧
    add_operation
        { settings := OpenApiSettings.default, schema_generator := ⟨[]⟩,
          operations := [(("/a", Method.Get), {})] }
        ⟨"/a", Method.Get, { summary := some "other" }⟩ =
      .error (Method.Get, "/a") :=
  ⟨by decide,
   (C2_duplicate_registration_fatal
     { settings := OpenApiSettings.default, schema_generator := ⟨[]⟩,
       operations := [(("/a", Method.Get), {})] }
     ⟨"/a", Method.Get, { summary := some "other" }⟩).1 (by decide)⟩

/-- Claim C3, amended: registering a CONNECT-method descriptor under a key
that is not already present never raises an error; `set_operation` on CONNECT
returns the `PathItem` unchanged (no slot is written and no error is raised);
and the slots of the assembled document are identical with and without the
CONNECT-method registrations, so a CONNECT operation never appears in any
slot. -/
theorem C3_connect_dropped :
    (∀ (g : OpenApiGenerator) (opInfo : OperationInfo), opInfo.method = .Connect →
      lookupOp g.operations opInfo.path opInfo.method = none →
      ∃ g', add_operation g opInfo = .ok g') ∧
    (∀ (item : PathItem) (op : Operation), set_operation item .Connect op = some item) ∧
    (∀ (g : OpenApiGenerator) (doc doc' : OpenApi), keysDistinct g.operations →
      into_openapi g = some doc →
      into_openapi { g with operations := dropConnect g.operations } = some doc' →
      ∀ p m, docSlot doc p m = docSlot doc' p m) := by
  refine ⟨?_, fun item op => set_operation_connect item op, ?_⟩
  · intro g opInfo _ hl
    unfold add_operation
    rw [hl]
    exact ⟨_, rfl⟩
  · intro g doc doc' hdist hdoc hdoc' p m
    obtain ⟨d0, h0, hc0⟩ := into_openapi_char g hdist
    have hd0 : d0 = doc := Option.some_inj.mp (h0.symm.trans hdoc)
    have hdist' : keysDistinct (dropConnect g.operations) :=
      keysDistinct_dropConnect _ hdist
    obtain ⟨d1, h1, hc1⟩ :=
      into_openapi_char { g with operations := dropConnect g.operations } hdist'
    have hd1 : d1 = doc' := Option.some_inj.mp (h1.symm.trans hdoc')
    rw [← hd0, ← hd1, hc0 p m, hc1 p m]
    by_cases hm : m = .Connect
    · rw [if_pos hm, if_pos hm]
    · rw [if_neg hm, if_neg hm]
      show lookupOp g.operations p m = lookupOp (dropConnect g.operations) p m
      rw [lookupOp_dropConnect _ _ _ hm]

/-- Counterexample to claim C3 as stated: registering a CONNECT-method
descriptor whose (path, method) key is already registered raises the
duplicate-key error reporting the method and path. -/
theorem C3_counterexample :
    add_operation (OpenApiGenerator.new OpenApiSettings.default)
        ⟨"/c", Method.Connect, {}⟩ =
      .ok { settings := OpenApiSettings.default, schema_generator := ⟨[]⟩,
            operations := [(("/c", Method.Connect), {})] } ∧
    add_operation
        { settings := OpenApiSettings.default, schema_generator := ⟨[]⟩,
          operations := [(("/c", Method.Connect), {})] }
        ⟨"/c", Method.Connect, { summary := some "again" }⟩ =
      .error (Method.Connect, "/c") :=
  ⟨rfl, rfl⟩

/-- Witness for claim C3's amended theorem: a fresh CONNECT registration
succeeds, and assembling a registry with a CONNECT entry yields the same
slots as without it. -/
theorem C3_connect_dropped_witness :
    (∃ g', add_operation (OpenApiGenerator.new OpenApiSettings.default)
        ⟨"/c", Method.Connect, {}⟩ = .ok g') ∧
    ∀ p m, docSlot { openapi := "3.0.0", paths := [("/c", {})],
                     components := some { schemas := [] } } p m =
      docSlot { openapi := "3.0.0", paths := [],
                components := some { schemas := [] } } p m := by
  constructor
  · exact C3_connect_dropped.1 (OpenApiGenerator.new OpenApiSettings.default)
      ⟨"/c", Method.Connect, {}⟩ rfl rfl
  · exact C3_connect_dropped.2.2
      { settings := OpenApiSettings.default, schema_generator := ⟨[]⟩,
        operations := [(("/c", Method.Connect), {})] }
      { openapi := "3.0.0", paths := [("/c", {})], components := some { schemas := [] } }
      { openapi := "3.0.0", paths := [], components := some { schemas := [] } }
      (by decide) rfl rfl

/-- Claim C4: for every method other than CONNECT, a successful
`set_operation` writes the operation into the slot textually corresponding to
the method (per `slotOf`) and leaves every other slot of that `PathItem`
unchanged. -/
theorem C4_slot_write_frame (item : PathItem) (m : Method) (op : Operation)
    (item' : PathItem) (hm : m ≠ .Connect)
    (h : set_operation item m op = some item') :
    slotOf item' m = some op ∧ ∀ m', m' ≠ m → slotOf item' m' = slotOf item m' :=
  set_operation_slots item m op item' hm h

/-- Witness for claim C4's theorem: writing a GET operation into an empty
`PathItem`. -/
theorem C4_slot_write_frame_witness :
    Method.Get ≠ Method.Connect ∧
    set_operation {} Method.Get { summary := some "s" } =
      some { get := some { summary := some "s" } } ∧
    (slotOf { get := some { summary := some "s" } } Method.Get =
        some { summary := some "s" } ∧
      ∀ m', m' ≠ Method.Get →
        slotOf { get := some { summary := some "s" } } m' = slotOf {} m') :=
  ⟨by decide, rfl,
   C4_slot_write_frame {} Method.Get { summary := some "s" }
     { get := some { summary := some "s" } } (by decide) rfl⟩

/-- Witness for claim C5's theorem: the no-separator case at "baz" and the
stored-normalized case at identifier "::x::y" registered under ("/a", Get). -/
theorem C5_identifier_normalization_witness :
    normalizeOpId "baz" = "baz" ∧
    lookupOp [(("/a", Method.Get),
        ({ operation_id := some "x_y" } : Operation))] "/a" Method.Get =
      some { ({ operation_id := some "::x::y" } : Operation) with
             operation_id := (some "::x::y").map normalizeOpId } :=
  ⟨C5_identifier_normalization.2.2.1 "baz" (by decide),
   C5_identifier_normalization.2.2.2
     (OpenApiGenerator.new OpenApiSettings.default)
     ⟨"/a", Method.Get, { operation_id := some "::x::y" }⟩
     { settings := OpenApiSettings.default, schema_generator := ⟨[]⟩,
       operations := [(("/a", Method.Get), { operation_id := some "x_y" })] }
     rfl⟩

/-- Claim C6: the schema conversion maps a reference schema to the same
reference, a concrete schema object to the same inline object, the
universal-accept boolean to the unconstrained inline object, and the
universal-reject boolean to an inline object whose only constraint is the
negation of the unconstrained schema. -/
theorem C6_schema_conversion :
    (∀ r, get_ref_or_object (.Ref r) = .Ref r) ∧
    (∀ s, get_ref_or_object (.Object s) = .Object s) ∧
    get_ref_or_object (.Bool true) = .Object defaultSchemaObject ∧
    get_ref_or_object (.Bool false) =
      .Object (.mk [] (some (.Object defaultSchemaObject))) ∧
    defaultSchemaObject.constraints = [] ∧
    defaultSchemaObject.notC = none ∧
    (SchemaObject.mk [] (some (.Object defaultSchemaObject))).constraints = [] ∧
    (SchemaObject.mk [] (some (.Object defaultSchemaObject))).notC =
      some (.Object defaultSchemaObject) :=
  ⟨fun _ => rfl, fun _ => rfl, rfl, rfl, rfl, rfl, rfl, rfl⟩

/-- Claim C7: when the registry's (path, method) keys are pairwise distinct,
assembly never hits a filled target slot, so the emptiness assertion never
fails and `into_openapi` succeeds. -/
theorem C7_slot_assertion_holds (g : OpenApiGenerator)
    (h : keysDistinct g.operations) : (into_openapi g).isSome = true := by
  obtain ⟨doc, hdoc, _⟩ := into_openapi_char g h
  rw [hdoc]
  rfl

/-- Witness for claim C7's theorem: a distinct-key two-operation registry on
the same path assembles successfully. -/
theorem C7_slot_assertion_holds_witness :
    keysDistinct [(("/items", Method.Get), ({} : Operation)),
                  (("/items", Method.Post), ({} : Operation))] ∧
    (into_openapi
      { settings := OpenApiSettings.default, schema_generator := ⟨[]⟩,
        operations := [(("/items", Method.Get), {}),
                       (("/items", Method.Post), {})] }).isSome = true :=
  ⟨by decide, C7_slot_assertion_holds _ (by decide)⟩

/-- Claim C8: `json_schema` propagates a generation error to its caller as a
recoverable result and, on success, returns the converted schema. -/
theorem C8_generation_error_propagation :
    (∀ e : String, json_schema (.error e) = .error e) ∧
    ∀ s : Schema, json_schema (.ok s) = .ok (get_ref_or_object s) :=
  ⟨fun _ => rfl, fun _ => rfl⟩

/-- Claim C9: every assembled document has version string "3.0.0", its
components carry exactly the drained definitions table with the
boolean-to-object conversion applied to every entry, and all other document
sections keep their default/empty values. -/
theorem C9_document_structure (g : OpenApiGenerator) (doc : OpenApi)
    (h : into_openapi g = some doc) :
    doc.openapi = "3.0.0" ∧
    doc.components = some { schemas :=
      (into_definitions g.schema_generator).map fun kv => (kv.1, get_ref_or_object kv.2) } ∧
    doc.info = "" ∧ doc.servers = [] ∧ doc.security = [] ∧ doc.tags = [] := by
  unfold into_openapi at h
  cases hb : buildPaths g.operations with
  | none => rw [hb] at h; simp at h
  | some paths' =>
    rw [hb] at h
    simp only [Option.map_some', Option.some_inj] at h
    subst h
    exact ⟨rfl, rfl, rfl, rfl, rfl, rfl⟩

/-- Witness for claim C9's theorem: an empty registry with one named
definition "Item" holding the universal-reject schema. -/
theorem C9_document_structure_witness :
    into_openapi { settings := OpenApiSettings.default, schema_generator := ⟨[("Item", Schema.Bool false)]⟩, operations := [] } = some { openapi := "3.0.0", paths := [], components := some { schemas := [("Item", RefOr.Object (.mk [] (some (.Object defaultSchemaObject))))] } } ∧
    (({ openapi := "3.0.0", paths := [], components := some { schemas := [("Item", RefOr.Object (.mk [] (some (.Object defaultSchemaObject))))] } } : OpenApi).openapi = "3.0.0" ∧
      ({ openapi := "3.0.0", paths := [], components := some { schemas := [("Item", RefOr.Object (.mk [] (some (.Object defaultSchemaObject))))] } } : OpenApi).components = some { schemas := (into_definitions (⟨[("Item", Schema.Bool false)]⟩ : SchemaGenerator)).map (fun kv => (kv.1, get_ref_or_object kv.2)) } ∧
      ({ openapi := "3.0.0", paths := [], components := some { schemas := [("Item", RefOr.Object (.mk [] (some (.Object defaultSchemaObject))))] } } : OpenApi).info = "" ∧
      ({ openapi := "3.0.0", paths := [], components := some { schemas := [("Item", RefOr.Object (.mk [] (some (.Object defaultSchemaObject))))] } } : OpenApi).servers = [] ∧
      ({ openapi := "3.0.0", paths := [], components := some { schemas := [("Item", RefOr.Object (.mk [] (some (.Object defaultSchemaObject))))] } } : OpenApi).security = [] ∧
      ({ openapi := "3.0.0", paths := [], components := some { schemas := [("Item", RefOr.Object (.mk [] (some (.Object defaultSchemaObject))))] } } : OpenApi).tags = []) :=
  ⟨rfl,
   C9_document_structure { settings := OpenApiSettings.default, schema_generator := ⟨[("Item", Schema.Bool false)]⟩, operations := [] } { openapi := "3.0.0", paths := [], components := some { schemas := [("Item", RefOr.Object (.mk [] (some (.Object defaultSchemaObject))))] } } rfl⟩
